import Mathlib

/-!
Verification of the response-augmentation decision engine of the ai-chatbot
repository: the staleness classifier (src/app/utils/openai/searchAnalyzer.ts),
the sliding-window rate limiter (src/app/utils/rateLimit.ts), the augmentation
orchestrator (src/app/utils/openai/apiUtils.ts) and the prompt sanitization of
the API route (src/app/api/openai/route.ts).

Strings are modelled as sequences of characters (Unicode scalar values); all
texts involved are BMP-only, where JavaScript string length and character
count coincide.  Times and years are modelled as `Int` (JavaScript numbers at
integral values).  Exceptions are modelled with `Except`.
-/

namespace SearchAnalyzer

/-! ## A small pattern language

The classifier uses a handful of JavaScript regular expressions built from
literal alternatives, bounded wildcards `.{0,n}`, an unbounded lazy wildcard
`.*?` and four-digit groups `\d{4}`.  We embed exactly this fragment.  All
patterns consist of Japanese text and digits, so the `i` flag of the source
regexes has no effect and is not modelled.  A JavaScript `.` matches any
character except a line terminator. -/

def isDotChar (c : Char) : Bool :=
  c ≠ '\n' && c ≠ '\r' && c.toNat ≠ 0x2028 && c.toNat ≠ 0x2029

/-- Patterns: `fail` matches nothing, `eps` the empty string, `lit` a literal
character sequence, `anyLe n` is `.{0,n}`, `anyStar` is `.*` (for match
existence, lazy and greedy coincide), `digits n` is `\d{n}`, `alt`/`seq` are
alternation and concatenation. -/
inductive Pat where
  | fail
  | eps
  | lit (s : List Char)
  | anyLe (n : Nat)
  | anyStar
  | digits (n : Nat)
  | alt (p q : Pat)
  | seq (p q : Pat)

/-- Drop a literal from the front of the input, or fail. -/
def dropLit : List Char → List Char → Option (List Char)
  | [], cs => some cs
  | _, [] => none
  | a :: as, c :: cs => if a = c then dropLit as cs else none

/-- Backtracking matcher: does `p` match a prefix of `cs` such that the
continuation `k` accepts the remainder? -/
def matchPat : Pat → List Char → (List Char → Bool) → Bool
  | .fail, _, _ => false
  | .eps, cs, k => k cs
  | .lit s, cs, k =>
    match dropLit s cs with
    | some rest => k rest
    | none => false
  | .anyLe n, cs, k =>
    (List.range (n + 1)).any fun i =>
      decide (i ≤ cs.length) && (cs.take i).all isDotChar && k (cs.drop i)
  | .anyStar, cs, k =>
    (List.range (cs.length + 1)).any fun i =>
      (cs.take i).all isDotChar && k (cs.drop i)
  | .digits n, cs, k =>
    decide ((cs.take n).length = n) && (cs.take n).all Char.isDigit && k (cs.drop n)
  | .alt p q, cs, k => matchPat p cs k || matchPat q cs k
  | .seq p q, cs, k => matchPat p cs fun rest => matchPat q rest k

/-- `RegExp.test`: search for a match starting at any position. -/
def testPat (p : Pat) (text : String) : Bool :=
  let cs := text.data
  (List.range (cs.length + 1)).any fun i => matchPat p (cs.drop i) fun _ => true

/-- A literal string pattern. -/
def pstr (s : String) : Pat := .lit s.data

/-- Alternation of a list of patterns. -/
def palt (ps : List Pat) : Pat := ps.foldr .alt .fail

/-- Concatenation of a list of patterns. -/
def pseq (ps : List Pat) : Pat := ps.foldr .seq .eps

/-- Alternation of literal strings, e.g. `(知識|情報|データ)`. -/
def altStrs (ss : List String) : Pat := palt (ss.map pstr)

/-! ## The pattern tables of searchAnalyzer.ts -/

/-- TIME_THRESHOLDS.OLD_YEAR_THRESHOLD -/
def OLD_YEAR_THRESHOLD : Int := 2

/-- TIME_THRESHOLDS.MODERATE_MATCH_THRESHOLD -/
def MODERATE_MATCH_THRESHOLD : Nat := 2

/-- TIME_THRESHOLDS.SHORT_ANSWER_THRESHOLD -/
def SHORT_ANSWER_THRESHOLD : Nat := 100

/-- getStrongPatterns: explicit admissions of knowledge limits.  The last two
patterns are built dynamically from the current year. -/
def getStrongPatterns (currentYear : Int) : List Pat :=
  [ pseq [pstr "私の", altStrs ["知識", "情報", "データ"],
      altStrs ["は", "が", "では"], .anyLe 10, altStrs ["まで", "更新", "制限"]],
    pseq [pstr "私が", altStrs ["持っている", "アクセスできる"],
      altStrs ["情報", "データ", "知識"], altStrs ["は", "が"], .anyLe 10,
      altStrs ["まで", "古い", "限られて"]],
    pseq [.digits 4, pstr "年", .anyStar, pstr "までの", altStrs ["情報", "データ"]],
    pseq [pstr "最新の", altStrs ["情報", "データ", "アップデート"],
      altStrs ["が", "は"], .alt (pstr "ない") (pseq [pstr "あり", pstr "ません"])],
    pseq [pstr "現時点での正確な", altStrs ["情報", "データ"],
      altStrs ["は", "が"], altStrs ["わから", "把握", "確認でき"]],
    pseq [pstr "私の", altStrs ["トレーニング", "学習"], altStrs ["データ", "期間"],
      altStrs ["は", "が"], .anyLe 15, altStrs ["まで", "終了", "制限"]],
    pseq [pstr (toString (currentYear - 1) ++ "年"), altStrs ["以前", "まで"],
      pstr "の", altStrs ["情報", "データ"]],
    pseq [pstr (toString (currentYear - 2) ++ "年"), altStrs ["以前", "まで"],
      pstr "の", altStrs ["情報", "データ"]] ]

/-- getModeratePatterns: softer recency cues. -/
def getModeratePatterns (currentYear : Int) : List Pat :=
  [ pseq [pstr "最新の", altStrs ["状況", "バージョン", "リリース", "製品", "技術"]],
    pseq [pstr (toString currentYear ++ "年"), altStrs ["の", "における"]],
    pstr (toString (currentYear - 1) ++ "年以降"),
    pseq [pstr "最近の", altStrs ["傾向", "動向", "発展", "変化"]],
    pseq [altStrs ["現在", "今"], pstr "の", altStrs ["市場", "状況", "標準", "規格"]],
    pseq [pstr "正確な", altStrs ["情報", "データ"], pstr "を",
      altStrs ["得る", "確認する"], pstr "には"],
    pseq [pstr "公式", altStrs ["サイト", "ウェブサイト", "情報源"], pstr "で",
      altStrs ["確認", "参照"]],
    pseq [pstr "最新", altStrs ["情報", "アップデート"], pstr "は", .anyLe 20,
      altStrs ["確認", "参照"]],
    pseq [pstr "より詳細な", altStrs ["情報", "データ"], pstr "は", .anyLe 20,
      altStrs ["検索", "確認"]] ]

/-- getExclusionPatterns: explicit confidence claims suppressing search. -/
def getExclusionPatterns : List Pat :=
  [ pstr "詳細な情報をお持ちしています",
    pstr "最新のデータによると",
    pstr "現在の情報では",
    pstr "最新の研究では",
    pstr "最近の調査によれば",
    pstr "私の知識によれば",
    pstr "詳しく説明します",
    pstr "具体的な例を挙げると" ]

/-- The recency-adverb test `/最新|最近|現在|今の/` used inside
analyzeYearBasedSearchNeed. -/
def recentTermsPat : Pat := altStrs ["最新", "最近", "現在", "今の"]

/-- The uncertainty test `/わかりません|不明|確認できません|把握していません/`. -/
def uncertaintyPat : Pat :=
  altStrs ["わかりません", "不明", "確認できません", "把握していません"]

/-- The historical-fact test
`/(発売|設立|創業|創立|開始|発表|公開)(された|した|れた)/`. -/
def historicalFactPat : Pat :=
  pseq [altStrs ["発売", "設立", "創業", "創立", "開始", "発表", "公開"],
    altStrs ["された", "した", "れた"]]

/-! ## Year extraction -/

/-- Numeric value of a digit character. -/
def digitVal (c : Char) : Int := Int.ofNat (c.toNat - '0'.toNat)

/-- Value of a four-digit year. -/
def yearVal (a b c d : Char) : Int :=
  1000 * digitVal a + 100 * digitVal b + 10 * digitVal c + digitVal d

/-- Left-to-right, non-overlapping scan for `/(\d{4})年/g`: at each position
try four digits followed by 年; on success record the year and resume after
the match, otherwise advance one character. -/
def yearsAux : List Char → List Int
  | a :: b :: c :: d :: e :: rest =>
    if a.isDigit && b.isDigit && c.isDigit && d.isDigit && e = '年' then
      yearVal a b c d :: yearsAux rest
    else
      yearsAux (b :: c :: d :: e :: rest)
  | _ => []

/-- extractYearsFromText: all years mentioned with the 年 marker. -/
def extractYearsFromText (text : String) : List Int :=
  yearsAux text.data

/-- Current-date record, as produced by getCurrentDate. -/
structure DateYM where
  year : Int
  month : Int

/-- analyzeYearBasedSearchNeed: `none` when no decision can be made.  The
source returns `false` when all mentioned years are old, there is no future
year and no recency adverb occurs; `true` when some year lies in the future. -/
def analyzeYearBasedSearchNeed (years : List Int) (text : String)
    (currentYear : Int) : Option Bool :=
  if years.isEmpty then none
  else
    let allYearsOld := years.all fun y => decide (y < currentYear - OLD_YEAR_THRESHOLD)
    let hasFutureYears := years.any fun y => decide (y > currentYear)
    if allYearsOld && !hasFutureYears && !testPat recentTermsPat text then
      some false
    else if hasFutureYears then
      some true
    else
      none

/-- First match of `/(\d{4})年(現在|時点)/`, returning the mentioned year. -/
def timeContextYear : List Char → Option Int
  | a :: b :: c :: d :: e :: rest =>
    if a.isDigit && b.isDigit && c.isDigit && d.isDigit && e = '年' &&
        ((dropLit "現在".data rest).isSome || (dropLit "時点".data rest).isSome) then
      some (yearVal a b c d)
    else
      timeContextYear (b :: c :: d :: e :: rest)
  | _ => none

/-- Greedy month parse after a 年 marker: two digits then 月, else one digit
then 月, mirroring `(\d{1,2})月`. -/
def parseMonth : List Char → Option Int
  | m1 :: m2 :: rest =>
    if m1.isDigit && m2.isDigit && rest.head? = some '月' then
      some (10 * digitVal m1 + digitVal m2)
    else if m1.isDigit && m2 = '月' then
      some (digitVal m1)
    else
      none
  | _ => none

/-- First match of `/(\d{4})年(\d{1,2})月/`, returning year and month. -/
def monthYearScan : List Char → Option (Int × Int)
  | a :: b :: c :: d :: e :: rest =>
    if a.isDigit && b.isDigit && c.isDigit && d.isDigit && e = '年' then
      match parseMonth rest with
      | some m => some (yearVal a b c d, m)
      | none => monthYearScan (b :: c :: d :: e :: rest)
    else
      monthYearScan (b :: c :: d :: e :: rest)
  | _ => none

/-- analyzeTimeContext: the two time-context heuristics. -/
def analyzeTimeContext (text : String) (currentDate : DateYM) : Option Bool :=
  if (match timeContextYear text.data with
      | some y => decide (y < currentDate.year - 1)
      | none => false) then
    some true
  else
    match monthYearScan text.data with
    | some (y, m) =>
      if y < currentDate.year - 1 ∨ (y = currentDate.year - 1 ∧ m < currentDate.month) then
        if !testPat historicalFactPat text then some true else none
      else
        none
    | none => none

/-- needsWebSearchInfo, with the current date (read from the clock in the
source) passed explicitly: year-based decision first, then strong patterns,
exclusion patterns, the moderate-pattern count, the short-uncertain heuristic
and the time-context heuristics, defaulting to `false`. -/
def needsWebSearchInfo (text : String) (currentDate : DateYM) : Bool :=
  let strongPatterns := getStrongPatterns currentDate.year
  let moderatePatterns := getModeratePatterns currentDate.year
  let exclusionPatterns := getExclusionPatterns
  let years := extractYearsFromText text
  match analyzeYearBasedSearchNeed years text currentDate.year with
  | some b => b
  | none =>
    if strongPatterns.any (fun p => testPat p text) then true
    else if exclusionPatterns.any (fun p => testPat p text) then false
    else if MODERATE_MATCH_THRESHOLD ≤ (moderatePatterns.filter (fun p => testPat p text)).length then true
    else if decide (text.length < SHORT_ANSWER_THRESHOLD) && testPat uncertaintyPat text then true
    else
      match analyzeTimeContext text currentDate with
      | some b => b
      | none => false

/-- The world visible to the classifier: the system clock.  getCurrentDate
reads the clock and mutates nothing. -/
def getCurrentDate (w : DateYM) : DateYM × DateYM := (⟨w.year, w.month⟩, w)

/-- The classifier as it runs: read the current date from the world, then
compute the pure decision; the final world is returned alongside the result. -/
def needsWebSearchInfoRun (text : String) (w : DateYM) : Bool × DateYM :=
  let p := getCurrentDate w
  (needsWebSearchInfo text p.1, p.2)

end SearchAnalyzer

namespace RateLimit

/-! ## Sliding-window rate limiter (src/app/utils/rateLimit.ts)

The module-level `Map<string, number[]>` is modelled as an association list
in insertion order, matching JavaScript `Map` iteration order.  `set` on an
existing key updates the value in place; on a fresh key it appends. -/

/-- The ledger: identity token to ordered request timestamps. -/
abbrev Ledger := List (String × List Int)

/-- `Map.get`. -/
def mapGet (m : Ledger) (k : String) : Option (List Int) :=
  (m.find? fun e => e.1 = k).map fun e => e.2

/-- `Map.set`: update in place, or append a fresh key. -/
def mapSet : Ledger → String → List Int → Ledger
  | [], k, v => [(k, v)]
  | e :: rest, k, v => if e.1 = k then (k, v) :: rest else e :: mapSet rest k v

/-- `Map.delete`. -/
def mapDelete : Ledger → String → Ledger
  | [], _ => []
  | e :: rest, k => if e.1 = k then rest else e :: mapDelete rest k

/-- filterRecentRequests: timestamps still inside the window ending at `now`. -/
def filterRecentRequests (timestamps : List Int) (now interval : Int) : List Int :=
  timestamps.filter fun timestamp => now - timestamp < interval

/-- cleanupExpiredTokens: the periodic sweep.  Every entry keeps only its
recent timestamps; entries left empty are deleted. -/
def cleanupExpiredTokens (m : Ledger) (now interval : Int) : Ledger :=
  (m.map fun e => (e.1, filterRecentRequests e.2 now interval)).filter
    fun e => !e.2.isEmpty

/-- `Math.min(...timestamps)`: `none` encodes the `Infinity` produced on an
empty spread. -/
def minTS : List Int → Option Int
  | [] => none
  | t :: ts =>
    match minTS ts with
    | none => some t
    | some m => some (min t m)

/-- Strict comparison on `Option Int` with `none` as `Infinity`. -/
def ltInf : Option Int → Option Int → Bool
  | none, _ => false
  | some _, none => true
  | some x, some y => decide (x < y)

/-- The selection loop of enforceUniqueTokenLimit: running `oldestToken` and
`oldestTimestamp`, updated whenever an entry has a strictly earlier first
timestamp. -/
def findOldestAux : Ledger → Option String → Option Int → Option String × Option Int
  | [], tok, ts => (tok, ts)
  | e :: rest, tok, ts =>
    if ltInf (minTS e.2) ts then findOldestAux rest (some e.1) (minTS e.2)
    else findOldestAux rest tok ts

/-- The token with the smallest earliest timestamp (first wins ties). -/
def findOldest (m : Ledger) : Option String :=
  (findOldestAux m none none).1

/-- enforceUniqueTokenLimit: when the number of tracked tokens exceeds the
limit, delete the token with the oldest first timestamp.  The final
`if (oldestToken)` of the source is falsy for both `null` and the empty
string. -/
def enforceUniqueTokenLimit (m : Ledger) (uniqueTokenLimit : Int) : Ledger :=
  if (m.length : Int) ≤ uniqueTokenLimit then m
  else
    match findOldest m with
    | some tok => if tok = "" then m else mapDelete m tok
    | none => m

/-- The two failure modes of `check`. -/
inductive RLErr where
  | invalidParams
  | rateLimitExceeded
deriving DecidableEq, Repr

/-- `check(maxRequests, token)` at clock reading `now`, returning the thrown
error (if any) together with the ledger after the call.  Both throws happen
before any mutation, so the input ledger is returned unchanged there. -/
def checkRun (interval uniqueTokenPerInterval maxRequests : Int) (token : String)
    (now : Int) (m : Ledger) : Except RLErr Unit × Ledger :=
  if maxRequests ≤ 0 ∨ token = "" then (.error .invalidParams, m)
  else
    let timestamps := (mapGet m token).getD []
    let recent := filterRecentRequests timestamps now interval
    if (maxRequests : Int) ≤ recent.length then (.error .rateLimitExceeded, m)
    else
      let m1 := mapSet m token (recent ++ [now])
      (.ok (), enforceUniqueTokenLimit m1 uniqueTokenPerInterval)

/-- A sequence of `check` calls for one token at the given times, stopping at
the first failure. -/
def runChecks (interval uniqueTokenPerInterval maxRequests : Int) (token : String) :
    List Int → Ledger → Except RLErr Unit × Ledger
  | [], m => (.ok (), m)
  | t :: ts, m =>
    match checkRun interval uniqueTokenPerInterval maxRequests token t m with
    | (.ok _, m1) => runChecks interval uniqueTokenPerInterval maxRequests token ts m1
    | (e, m1) => (e, m1)

/-- States reachable from the empty ledger by `check` calls and background
sweeps under a non-decreasing clock. -/
inductive Reachable (interval cap : Int) : Int → Ledger → Prop where
  | init (t : Int) : Reachable interval cap t []
  | step (t u : Int) (m : Ledger) (maxRequests : Int) (token : String) :
      Reachable interval cap t m → t ≤ u →
      Reachable interval cap u (checkRun interval cap maxRequests token u m).2
  | sweep (t u : Int) (m : Ledger) :
      Reachable interval cap t m → t ≤ u →
      Reachable interval cap u (cleanupExpiredTokens m u interval)

/-- Every entry of the ledger is non-decreasing in insertion order. -/
def SortedLedger (m : Ledger) : Prop :=
  ∀ e ∈ m, e.2.Pairwise (fun a b => a ≤ b)

/-- Every recorded timestamp is at most the clock reading. -/
def BoundedBy (m : Ledger) (t : Int) : Prop :=
  ∀ e ∈ m, ∀ x ∈ e.2, x ≤ t

end RateLimit

namespace Orchestrator

/-! ## Augmentation orchestrator (src/app/utils/openai/apiUtils.ts)

The collaborators (keyword extraction, web search, chat completion) are the
only effectful calls; they are passed in as oracle functions whose failures
are `Except.error` values carrying the thrown message. -/

/-- A web search result. -/
structure SearchResult where
  title : String
  url : String
  description : String

/-- Chat message roles. -/
inductive Role where
  | system
  | user
  | assistant
deriving DecidableEq

/-- A chat message. -/
structure ChatMessage where
  role : Role
  content : String

/-- The effectful collaborators of the orchestrator.  `chatCompletion` is the
result of `callOpenAI` before the final processing: the trimmed content of the
first choice, empty when absent. -/
structure Collab where
  extractSearchKeywords : String → Except String String
  performWebSearch : String → Nat → Except String (List SearchResult)
  chatCompletion : String → List ChatMessage → Except String String

/-- API_SETTINGS.MAX_SEARCH_RESULTS -/
def MAX_SEARCH_RESULTS : Nat := 3

/-- TEST_MODEL_ID -/
def TEST_MODEL_ID : String := "test-model"

/-- isTestMode -/
def isTestMode (model : String) : Bool := model = TEST_MODEL_ID

/-- SYSTEM_PROMPTS.WEB_SEARCH -/
def WEB_SEARCH_PROMPT : String :=
  "あなたは親切なアシスタントです。提供された最新のWeb検索結果を参考にして、ユーザーの質問に回答してください。検索結果を適切に引用し、ソースを明示してください。"

/-- TEST_RESPONSES.WEB_SEARCH -/
def testWebSearchResponse (prompt initialResponse : String) : String :=
  "これはテストモードでの応答です。Web検索機能も実際には実行されていません。\n初期クエリ: "
    ++ prompt ++ "\n初期応答: " ++ initialResponse

/-- formatSearchResults: the numbered context block built from the results. -/
def formatSearchResults (searchResults : List SearchResult) : String :=
  searchResults.enum.foldl
    (fun acc p =>
      acc ++ "[" ++ toString (p.1 + 1) ++ "] " ++ p.2.title ++ "\n"
        ++ "URL: " ++ p.2.url ++ "\n" ++ p.2.description ++ "\n\n")
    "以下は最新のWeb検索結果です:\n\n"

/-- The message list of generateFinalResponseWithSearchResults. -/
def finalMessages (prompt searchContext : String) : List ChatMessage :=
  [ ⟨.system, WEB_SEARCH_PROMPT⟩,
    ⟨.user, prompt⟩,
    ⟨.assistant, "申し訳ありませんが、その質問に答えるための最新情報を持っていません。Web検索で確認してみます。"⟩,
    ⟨.user, searchContext ++ "\n\n上記の情報を参考に、私の質問に回答してください: " ++ prompt⟩ ]

/-- generateFinalResponseWithSearchResults: the second LLM call; its own
try/catch returns the initial response on failure, and the
`finalResponse || initialResponse` fallback returns it on an empty answer. -/
def generateFinalResponseWithSearchResults (c : Collab)
    (prompt initialResponse searchContext model : String) : String :=
  match c.chatCompletion model (finalMessages prompt searchContext) with
  | .ok finalResponse => if finalResponse = "" then initialResponse else finalResponse
  | .error _ => initialResponse

/-- The body of the `try` block of generateResponseWithWebSearch: keyword
extraction, web search, early return of the initial response on empty
results, and otherwise the second LLM call.  Collaborator exceptions
propagate as `Except.error`. -/
def tryAugment (c : Collab) (prompt initialResponse model : String) :
    Except String String := do
  let searchKeywords ← c.extractSearchKeywords prompt
  let searchResults ← c.performWebSearch searchKeywords MAX_SEARCH_RESULTS
  if searchResults.length = 0 then
    pure initialResponse
  else
    pure (generateFinalResponseWithSearchResults c prompt initialResponse
      (formatSearchResults searchResults) model)

/-- generateResponseWithWebSearch: test mode short-circuits; otherwise the
try body runs under a catch-all that degrades to the initial response.  The
total return type `String` reflects that no exception escapes. -/
def generateResponseWithWebSearch (c : Collab)
    (prompt initialResponse model : String) : String :=
  if isTestMode model then testWebSearchResponse prompt initialResponse
  else
    match tryAugment c prompt initialResponse model with
    | .ok s => s
    | .error _ => initialResponse

end Orchestrator

namespace ApiRoute

/-! ## Prompt handling of the POST route (src/app/api/openai/route.ts) -/

/-- API_SETTINGS.MAX_INPUT_LENGTH -/
def MAX_INPUT_LENGTH : Nat := 1000

/-- sanitizeInput: `input.slice(0, 1000)`. -/
def sanitizeInput (input : String) : String :=
  ⟨input.data.take MAX_INPUT_LENGTH⟩

/-- The prompt handed to the pipeline by POST for a string-typed prompt:
an empty prompt is rejected with status 400 (`none`); any other prompt is
sanitized and passed to the initial LLM call and the augmentation flow
unchanged thereafter. -/
def promptForPipeline (prompt : String) : Option String :=
  if prompt = "" then none else some (sanitizeInput prompt)

end ApiRoute

namespace SearchAnalyzer

lemma analyzeYearBased_of_future (years : List Int) (text : String) (cy y : Int)
    (hmem : y ∈ years) (hfut : cy < y) :
    analyzeYearBasedSearchNeed years text cy = some true := by
  unfold analyzeYearBasedSearchNeed
  have hne : ¬ (years.isEmpty = true) := by
    cases years with
    | nil => cases hmem
    | cons a l => simp [List.isEmpty]
  rw [if_neg hne]
  have hfut' : (years.any fun z => decide (z > cy)) = true :=
    List.any_eq_true.mpr ⟨y, hmem, by simpa using hfut⟩
  simp [hfut']

lemma analyzeYearBased_of_all_old (years : List Int) (text : String) (cy : Int)
    (hne : years ≠ [])
    (hold : ∀ y ∈ years, y < cy - 2)
    (hrec : testPat recentTermsPat text = false) :
    analyzeYearBasedSearchNeed years text cy = some false := by
  unfold analyzeYearBasedSearchNeed
  have hne' : ¬ (years.isEmpty = true) := by
    cases years with
    | nil => exact absurd rfl hne
    | cons a l => simp [List.isEmpty]
  rw [if_neg hne']
  have hall : (years.all fun z => decide (z < cy - OLD_YEAR_THRESHOLD)) = true := by
    refine List.all_eq_true.mpr fun z hz => ?_
    have := hold z hz
    simp only [OLD_YEAR_THRESHOLD]
    exact decide_eq_true (by omega)
  have hfut : (years.any fun z => decide (z > cy)) = false := by
    refine List.any_eq_false.mpr fun z hz => ?_
    have := hold z hz
    simp only [decide_eq_true_eq]
    omega
  simp [hall, hfut, hrec]

lemma needsWebSearchInfo_of_yearBased (text : String) (d : DateYM) (b : Bool)
    (h : analyzeYearBasedSearchNeed (extractYearsFromText text) text d.year = some b) :
    needsWebSearchInfo text d = b := by
  simp only [needsWebSearchInfo]
  rw [h]

lemma needsWebSearchInfo_of_strong (text : String) (d : DateYM)
    (hnone : analyzeYearBasedSearchNeed (extractYearsFromText text) text d.year = none)
    (hstrong : ((getStrongPatterns d.year).any fun p => testPat p text) = true) :
    needsWebSearchInfo text d = true := by
  simp only [needsWebSearchInfo]
  rw [hnone, if_pos hstrong]

/-- Claim C4: for every text mentioning (with the 年 marker) a four-digit year
strictly greater than the current year, needsWebSearchInfo returns true,
regardless of the rest of the text. -/
theorem needsWebSearch_future_year (text : String) (d : DateYM) (y : Int)
    (hmem : y ∈ extractYearsFromText text) (hfut : d.year < y) :
    needsWebSearchInfo text d = true :=
  needsWebSearchInfo_of_yearBased text d true
    (analyzeYearBased_of_future _ text d.year y hmem hfut)

/-- Witness for Claim C4 at a concrete future-year text and date. -/
theorem needsWebSearch_future_year_witness :
    (2999 : Int) ∈ extractYearsFromText "2999年に発売予定です" ∧
    needsWebSearchInfo "2999年に発売予定です" ⟨2025, 5⟩ = true :=
  ⟨by decide, needsWebSearch_future_year _ ⟨2025, 5⟩ 2999 (by decide) (by decide)⟩

/-- Claim C5: for every text mentioning at least one year, all of whose
mentioned years are more than 2 years older than the current year, and which
contains none of the recency adverbs, needsWebSearchInfo returns false. -/
theorem needsWebSearch_all_old (text : String) (d : DateYM)
    (hne : extractYearsFromText text ≠ [])
    (hold : ∀ y ∈ extractYearsFromText text, y < d.year - 2)
    (hrec : testPat recentTermsPat text = false) :
    needsWebSearchInfo text d = false :=
  needsWebSearchInfo_of_yearBased text d false
    (analyzeYearBased_of_all_old _ text d.year hne hold hrec)

/-- Witness for Claim C5 at the pure historical-fact example text. -/
theorem needsWebSearch_all_old_witness :
    extractYearsFromText "2010年5月に設立されました。創業者は田中太郎です。" ≠ [] ∧
    needsWebSearchInfo "2010年5月に設立されました。創業者は田中太郎です。" ⟨2025, 5⟩ = false :=
  ⟨by decide,
   needsWebSearch_all_old _ ⟨2025, 5⟩ (by decide) (by decide) (by decide)⟩

/-- Claim C1 (counterexample): the knowledge-cutoff admission
「私の知識は2023年9月までです」 is classified as NOT needing web search once the
current year reaches 2026, because the mentioned year 2023 is then more than
2 years old, the text has no recency adverb, and the year-based pre-filter
short-circuits before the strong patterns are consulted.  The claim fails
as stated for every current date. -/
theorem needsWebSearch_cutoff_counterexample :
    needsWebSearchInfo "私の知識は2023年9月までです" ⟨2026, 10⟩ = false := by decide

/-- Claim C1 (amended): for the knowledge-cutoff admission text, the
classifier returns true at every current date whose year is at most 2025:
before 2023 the mentioned year is a future year, and from 2023 to 2025 the
year-based pre-filter makes no decision and the first strong pattern fires. -/
theorem needsWebSearch_cutoff_until_2025 (y m : Int) (h : y ≤ 2025) :
    needsWebSearchInfo "私の知識は2023年9月までです" ⟨y, m⟩ = true := by
  have hyrs : extractYearsFromText "私の知識は2023年9月までです" = [2023] := by decide
  by_cases h22 : y ≤ 2022
  · refine needsWebSearchInfo_of_yearBased _ _ true ?_
    rw [hyrs]
    exact analyzeYearBased_of_future _ _ y 2023 (by simp) (by omega)
  · refine needsWebSearchInfo_of_strong _ ⟨y, m⟩ ?_ ?_
    · rw [hyrs]
      unfold analyzeYearBasedSearchNeed
      have hall : (([2023] : List Int).all fun z => decide (z < y - OLD_YEAR_THRESHOLD)) = false := by
        simp only [OLD_YEAR_THRESHOLD, List.all_cons, List.all_nil, Bool.and_true,
          decide_eq_false_iff_not]
        omega
      have hfut : (([2023] : List Int).any fun z => decide (z > y)) = false := by
        simp only [List.any_cons, List.any_nil, Bool.or_false, decide_eq_false_iff_not]
        omega
      simp [hall, hfut]
    · simp only [getStrongPatterns, List.any_cons, Bool.or_eq_true]
      exact Or.inl (by decide)

/-- Witness for Claim C1 (amended) at current date 2025-05. -/
theorem needsWebSearch_cutoff_witness :
    (2025 : Int) ≤ 2025 ∧
    needsWebSearchInfo "私の知識は2023年9月までです" ⟨2025, 5⟩ = true :=
  ⟨le_refl _, needsWebSearch_cutoff_until_2025 2025 5 (by decide)⟩

/-- Claim C8: the classifier, run against a world holding the clock, leaves
the world unchanged, computes a pure function of text and current date, and
hence two successive evaluations on the same text yield the same boolean. -/
theorem needsWebSearch_pure (text : String) (w : DateYM) :
    (needsWebSearchInfoRun text w).2 = w ∧
    (needsWebSearchInfoRun text w).1 = needsWebSearchInfo text ⟨w.year, w.month⟩ ∧
    (needsWebSearchInfoRun text (needsWebSearchInfoRun text w).2).1 =
      (needsWebSearchInfoRun text w).1 :=
  ⟨rfl, rfl, rfl⟩

end SearchAnalyzer

namespace RateLimit

lemma enforce_of_le (m : Ledger) (cap : Int) (h : (m.length : Int) ≤ cap) :
    enforceUniqueTokenLimit m cap = m := by
  unfold enforceUniqueTokenLimit
  rw [if_pos h]

lemma mapGet_single (k : String) (l : List Int) : mapGet [(k, l)] k = some l := by
  simp [mapGet, List.find?]

lemma mapSet_single (k : String) (l v : List Int) :
    mapSet [(k, l)] k v = [(k, v)] := by
  simp [mapSet]

lemma filterRecent_of_window (l : List Int) (now t0 interval : Int)
    (hnow : t0 ≤ now ∧ now < t0 + interval)
    (hl : ∀ x ∈ l, t0 ≤ x ∧ x < t0 + interval) :
    filterRecentRequests l now interval = l := by
  refine List.filter_eq_self.mpr fun x hx => ?_
  have := hl x hx
  exact decide_eq_true (by omega)

lemma checkRun_ok_empty (interval cap maxR now : Int) (token : String)
    (hvalid : ¬(maxR ≤ 0 ∨ token = "")) (_hpos : 0 < maxR) (hcap : 1 ≤ cap) :
    checkRun interval cap maxR token now [] = (.ok (), [(token, [now])]) := by
  simp only [checkRun]
  rw [if_neg hvalid]
  have hget : mapGet ([] : Ledger) token = none := rfl
  rw [hget]
  simp only [Option.getD_none, filterRecentRequests, List.filter_nil, List.length_nil,
    Nat.cast_zero]
  rw [if_neg (by omega)]
  simp only [mapSet, List.nil_append]
  rw [enforce_of_le _ _ (by simpa using hcap)]

lemma checkRun_ok_single (interval cap maxR now : Int) (token : String) (acc : List Int)
    (hvalid : ¬(maxR ≤ 0 ∨ token = ""))
    (hfil : filterRecentRequests acc now interval = acc)
    (hlt : (acc.length : Int) < maxR) (hcap : 1 ≤ cap) :
    checkRun interval cap maxR token now [(token, acc)] =
      (.ok (), [(token, acc ++ [now])]) := by
  simp only [checkRun]
  rw [if_neg hvalid, mapGet_single]
  simp only [Option.getD_some]
  rw [hfil]
  rw [if_neg (by omega)]
  rw [mapSet_single]
  rw [enforce_of_le _ _ (by simpa using hcap)]

lemma checkRun_limited (interval cap maxR now : Int) (token : String) (acc : List Int)
    (hvalid : ¬(maxR ≤ 0 ∨ token = ""))
    (hfil : filterRecentRequests acc now interval = acc)
    (hge : maxR ≤ (acc.length : Int)) :
    checkRun interval cap maxR token now [(token, acc)] =
      (.error .rateLimitExceeded, [(token, acc)]) := by
  simp only [checkRun]
  rw [if_neg hvalid, mapGet_single]
  simp only [Option.getD_some]
  rw [hfil]
  rw [if_pos hge]

lemma runChecks_ok_single (interval cap maxR : Int) (token : String) (t0 : Int)
    (_hI : 0 < interval) (hcap : 1 ≤ cap) (hvalid : ¬(maxR ≤ 0 ∨ token = "")) :
    ∀ (ts acc : List Int),
      (∀ x ∈ acc, t0 ≤ x ∧ x < t0 + interval) →
      (∀ x ∈ ts, t0 ≤ x ∧ x < t0 + interval) →
      ((acc.length + ts.length : Nat) : Int) ≤ maxR →
      runChecks interval cap maxR token ts [(token, acc)] =
        (.ok (), [(token, acc ++ ts)]) := by
  intro ts
  induction ts with
  | nil => intro acc _ _ _; simp [runChecks]
  | cons t ts ih =>
    intro acc hacc hts hlen
    have hwt : t0 ≤ t ∧ t < t0 + interval := hts t (List.mem_cons_self t ts)
    have hfil : filterRecentRequests acc t interval = acc :=
      filterRecent_of_window acc t t0 interval hwt hacc
    have hlt : (acc.length : Int) < maxR := by
      simp only [List.length_cons] at hlen
      push_cast at hlen ⊢
      omega
    have hstep := checkRun_ok_single interval cap maxR t token acc hvalid hfil hlt hcap
    simp only [runChecks, hstep]
    have hacc' : ∀ x ∈ acc ++ [t], t0 ≤ x ∧ x < t0 + interval := by
      intro x hx
      rcases List.mem_append.mp hx with h | h
      · exact hacc x h
      · rcases List.mem_singleton.mp h with rfl
        exact hwt
    have hts' : ∀ x ∈ ts, t0 ≤ x ∧ x < t0 + interval :=
      fun x hx => hts x (List.mem_cons_of_mem t hx)
    have hlen' : ((((acc ++ [t]).length + ts.length : Nat)) : Int) ≤ maxR := by
      simp only [List.length_append, List.length_singleton, List.length_cons, List.length_nil] at hlen ⊢
      push_cast at hlen ⊢
      omega
    rw [ih (acc ++ [t]) hacc' hts' hlen']
    simp

/-- Claim C6: for maxRequests ≤ 0 or an empty identity token, check fails
with the InvalidArgument error and returns the ledger completely unchanged. -/
theorem check_invalid_params (interval cap maxRequests : Int) (token : String)
    (now : Int) (m : Ledger) (h : maxRequests ≤ 0 ∨ token = "") :
    checkRun interval cap maxRequests token now m = (.error .invalidParams, m) := by
  simp only [checkRun]
  rw [if_pos h]

/-- Witness for Claim C6: check(0, "x") and check(-1, "x") on concrete
ledgers. -/
theorem check_invalid_params_witness :
    ((0 : Int) ≤ 0 ∨ "x" = "") ∧
    checkRun 60000 50 0 "x" 0 [] = (.error .invalidParams, []) ∧
    checkRun 60000 50 (-1) "x" 5 [("a", [1])] = (.error .invalidParams, [("a", [1])]) :=
  ⟨Or.inl le_rfl,
   check_invalid_params 60000 50 0 "x" 0 [] (Or.inl (by decide)),
   check_invalid_params 60000 50 (-1) "x" 5 [("a", [1])] (Or.inl (by decide))⟩

/-- Claim C2: for maxRequests = N > 0 and a single identity issuing N+1
checks at times within one interval window, the first N calls succeed
(recording all N timestamps) and the (N+1)-th call fails with
RateLimitExceeded, leaving the ledger unmodified.  The limiter is assumed
constructed with a positive interval and capacity for at least one identity. -/
theorem rate_limit_window (interval cap maxR t0 : Int) (token : String)
    (times : List Int) (textra : Int)
    (hI : 0 < interval) (hcap : 1 ≤ cap) (htok : token ≠ "")
    (hpos : 0 < maxR) (hlen : (times.length : Int) = maxR)
    (hwin : ∀ x ∈ times, t0 ≤ x ∧ x < t0 + interval)
    (hextra : t0 ≤ textra ∧ textra < t0 + interval) :
    runChecks interval cap maxR token times [] = (.ok (), [(token, times)]) ∧
    checkRun interval cap maxR token textra [(token, times)] =
      (.error .rateLimitExceeded, [(token, times)]) := by
  have hvalid : ¬(maxR ≤ 0 ∨ token = "") := by
    rintro (h | h)
    · omega
    · exact htok h
  constructor
  · cases times with
    | nil =>
      exfalso
      simp only [List.length_nil, Nat.cast_zero] at hlen
      omega
    | cons t ts =>
      have hwt : t0 ≤ t ∧ t < t0 + interval := hwin t (List.mem_cons_self t ts)
      have hstep := checkRun_ok_empty interval cap maxR t token hvalid hpos hcap
      simp only [runChecks, hstep]
      have h1 := runChecks_ok_single interval cap maxR token t0 hI hcap hvalid ts [t]
        (by intro x hx; rcases List.mem_singleton.mp hx with rfl; exact hwt)
        (fun x hx => hwin x (List.mem_cons_of_mem t hx))
        (by simp only [List.length_singleton, List.length_cons, List.length_nil] at hlen ⊢
            push_cast at hlen ⊢
            omega)
      rw [h1]
      simp
  · exact checkRun_limited interval cap maxR textra token times hvalid
      (filterRecent_of_window times textra t0 interval hextra hwin)
      (le_of_eq hlen.symm)

/-- Witness for Claim C2 with N = 2 inside a 60-second window. -/
theorem rate_limit_window_witness :
    runChecks 60000 50 2 "203.0.113.7" [0, 30000] [] =
      (.ok (), [("203.0.113.7", [0, 30000])]) ∧
    checkRun 60000 50 2 "203.0.113.7" 59999 [("203.0.113.7", [0, 30000])] =
      (.error .rateLimitExceeded, [("203.0.113.7", [0, 30000])]) :=
  rate_limit_window 60000 50 2 0 "203.0.113.7" [0, 30000] 59999
    (by decide) (by decide) (by decide) (by decide) (by decide)
    (by decide) (by decide)

end RateLimit

namespace RateLimit

lemma ltInf_irrefl (a : Option Int) : ltInf a a = false := by
  cases a <;> simp [ltInf]

lemma ltInf_asymm (a b : Option Int) (h : ltInf a b = true) : ltInf b a = false := by
  cases a <;> cases b <;> simp [ltInf] at * <;> omega

lemma ltInf_trans_ff (a b c : Option Int)
    (h1 : ltInf a b = false) (h2 : ltInf b c = false) : ltInf a c = false := by
  cases a <;> cases b <;> cases c <;> simp [ltInf] at * <;> omega

lemma findOldestAux_snd_le (m : Ledger) :
    ∀ tok ts, ltInf ts (findOldestAux m tok ts).2 = false := by
  induction m with
  | nil => intro tok ts; simp [findOldestAux, ltInf_irrefl]
  | cons e rest ih =>
    intro tok ts
    simp only [findOldestAux]
    by_cases h : ltInf (minTS e.2) ts = true
    · rw [if_pos h]
      exact ltInf_trans_ff _ _ _ (ltInf_asymm _ _ h) (ih (some e.1) (minTS e.2))
    · rw [if_neg h]
      exact ih tok ts

lemma findOldestAux_min (m : Ledger) :
    ∀ tok ts, ∀ e ∈ m, ltInf (minTS e.2) (findOldestAux m tok ts).2 = false := by
  induction m with
  | nil => intro tok ts e he; cases he
  | cons f rest ih =>
    intro tok ts e he
    simp only [findOldestAux]
    rcases List.mem_cons.mp he with rfl | hmem
    · by_cases h : ltInf (minTS e.2) ts = true
      · rw [if_pos h]
        exact findOldestAux_snd_le rest (some e.1) (minTS e.2)
      · rw [if_neg h]
        exact ltInf_trans_ff _ _ _ (Bool.eq_false_iff.mpr h) (findOldestAux_snd_le rest tok ts)
    · by_cases h : ltInf (minTS f.2) ts = true
      · rw [if_pos h]
        exact ih (some f.1) (minTS f.2) e hmem
      · rw [if_neg h]
        exact ih tok ts e hmem

lemma findOldestAux_provenance (m : Ledger) :
    ∀ tok ts,
      ((findOldestAux m tok ts).1 = tok ∧ (findOldestAux m tok ts).2 = ts) ∨
      ∃ e ∈ m, (findOldestAux m tok ts).1 = some e.1 ∧
        (findOldestAux m tok ts).2 = minTS e.2 := by
  induction m with
  | nil => intro tok ts; exact Or.inl ⟨rfl, rfl⟩
  | cons f rest ih =>
    intro tok ts
    simp only [findOldestAux]
    by_cases h : ltInf (minTS f.2) ts = true
    · rw [if_pos h]
      rcases ih (some f.1) (minTS f.2) with ⟨h1, h2⟩ | ⟨e, he, h1, h2⟩
      · exact Or.inr ⟨f, List.mem_cons_self f rest, h1, h2⟩
      · exact Or.inr ⟨e, List.mem_cons_of_mem f he, h1, h2⟩
    · rw [if_neg h]
      rcases ih tok ts with ⟨h1, h2⟩ | ⟨e, he, h1, h2⟩
      · exact Or.inl ⟨h1, h2⟩
      · exact Or.inr ⟨e, List.mem_cons_of_mem f he, h1, h2⟩

lemma minTS_of_ne_nil (l : List Int) (h : l ≠ []) : ∃ v, minTS l = some v := by
  cases l with
  | nil => exact absurd rfl h
  | cons t ts =>
    simp only [minTS]
    cases minTS ts <;> exact ⟨_, rfl⟩

lemma mapDelete_length (m : Ledger) (k : String)
    (h : k ∈ m.map Prod.fst) : (mapDelete m k).length + 1 = m.length := by
  induction m with
  | nil => cases h
  | cons e rest ih =>
    simp only [mapDelete]
    by_cases he : e.1 = k
    · rw [if_pos he]
      simp
    · rw [if_neg he]
      have hmem : k ∈ rest.map Prod.fst := by
        rcases List.mem_map.mp h with ⟨f, hf, hfk⟩
        rcases List.mem_cons.mp hf with rfl | hf2
        · exact absurd hfk he
        · exact List.mem_map.mpr ⟨f, hf2, hfk⟩
      have hih := ih hmem
      simp only [List.length_cons]
      omega

/-- Claim C7: when the tracked-identity count exceeds the capacity, exactly
one identity is evicted, namely one whose earliest recorded timestamp is
minimal over all tracked identities; when the count is within capacity no
identity is evicted.  Identities hold non-empty keys and timestamp lists, as
in every state produced by check. -/
theorem enforce_eviction (m : Ledger) (cap : Int)
    (hkeys : ∀ e ∈ m, e.1 ≠ "") (hnon : ∀ e ∈ m, e.2 ≠ []) :
    ((m.length : Int) ≤ cap → enforceUniqueTokenLimit m cap = m) ∧
    (cap < (m.length : Int) → 0 ≤ cap →
      ∃ e ∈ m,
        enforceUniqueTokenLimit m cap = mapDelete m e.1 ∧
        (enforceUniqueTokenLimit m cap).length + 1 = m.length ∧
        ∃ v, minTS e.2 = some v ∧
          ∀ f ∈ m, ∀ w, minTS f.2 = some w → v ≤ w) := by
  constructor
  · exact enforce_of_le m cap
  · intro hgt hcap
    have hne : m ≠ [] := by
      intro hm
      subst hm
      simp at hgt
      omega
    rcases findOldestAux_provenance m none none with ⟨h1, h2⟩ | ⟨e, he, h1, h2⟩
    · exfalso
      obtain ⟨f, hf⟩ := List.exists_mem_of_ne_nil m hne
      have hmin := findOldestAux_min m none none f hf
      rw [h2] at hmin
      obtain ⟨v, hv⟩ := minTS_of_ne_nil f.2 (hnon f hf)
      rw [hv] at hmin
      simp [ltInf] at hmin
    · obtain ⟨v, hv⟩ := minTS_of_ne_nil e.2 (hnon e he)
      have hres : enforceUniqueTokenLimit m cap = mapDelete m e.1 := by
        unfold enforceUniqueTokenLimit
        rw [if_neg (by omega), findOldest, h1]
        exact if_neg (hkeys e he)
      refine ⟨e, he, hres, ?_, v, hv, ?_⟩
      · rw [hres]
        exact mapDelete_length m e.1 (List.mem_map.mpr ⟨e, he, rfl⟩)
      · intro f hf w hw
        have hmin := findOldestAux_min m none none f hf
        rw [h2, hv, hw] at hmin
        simp [ltInf] at hmin
        omega

/-- Witness for Claim C7: capacity 2, and eviction of the oldest of three
identities. -/
theorem enforce_eviction_witness :
    (((2 : Nat) : Int) ≤ 2 →
      enforceUniqueTokenLimit [("a", [5]), ("b", [3])] 2 = [("a", [5]), ("b", [3])]) ∧
    enforceUniqueTokenLimit [("a", [5]), ("b", [3]), ("c", [7])] 2 = [("a", [5]), ("c", [7])] := by
  have h1 := enforce_eviction [("a", [5]), ("b", [3])] 2 (by decide) (by decide)
  have h2 := enforce_eviction [("a", [5]), ("b", [3]), ("c", [7])] 2 (by decide) (by decide)
  refine ⟨fun h => h1.1 h, ?_⟩
  obtain ⟨e, he, heq, hlen, v, hv, hmin⟩ := h2.2 (by decide) (by decide)
  rw [heq]
  have hb : e.1 = "b" := by
    have h3 := hmin ("b", [3]) (by simp) 3 (by simp [minTS])
    rcases List.mem_cons.mp he with rfl | hm1
    · exfalso
      simp [minTS] at hv
      omega
    rcases List.mem_cons.mp hm1 with rfl | hm2
    · rfl
    rcases List.mem_cons.mp hm2 with rfl | hm3
    · exfalso
      simp [minTS] at hv
      omega
    · cases hm3
  rw [hb]
  rfl

end RateLimit

namespace RateLimit

lemma mem_mapSet (m : Ledger) (k : String) (v : List Int) :
    ∀ e ∈ mapSet m k v, e ∈ m ∨ e = (k, v) := by
  induction m with
  | nil =>
    intro e he
    simp only [mapSet, List.mem_singleton] at he
    exact Or.inr he
  | cons f rest ih =>
    intro e he
    simp only [mapSet] at he
    by_cases hf : f.1 = k
    · rw [if_pos hf] at he
      rcases List.mem_cons.mp he with rfl | hmem
      · exact Or.inr rfl
      · exact Or.inl (List.mem_cons_of_mem f hmem)
    · rw [if_neg hf] at he
      rcases List.mem_cons.mp he with rfl | hmem
      · exact Or.inl (List.mem_cons_self e rest)
      · rcases ih e hmem with h | h
        · exact Or.inl (List.mem_cons_of_mem f h)
        · exact Or.inr h

lemma mem_mapDelete (m : Ledger) (k : String) :
    ∀ e ∈ mapDelete m k, e ∈ m := by
  induction m with
  | nil => intro e he; cases he
  | cons f rest ih =>
    intro e he
    simp only [mapDelete] at he
    by_cases hf : f.1 = k
    · rw [if_pos hf] at he
      exact List.mem_cons_of_mem f he
    · rw [if_neg hf] at he
      rcases List.mem_cons.mp he with rfl | hmem
      · exact List.mem_cons_self e rest
      · exact List.mem_cons_of_mem f (ih e hmem)

lemma mem_enforce (m : Ledger) (cap : Int) :
    ∀ e ∈ enforceUniqueTokenLimit m cap, e ∈ m := by
  intro e he
  unfold enforceUniqueTokenLimit at he
  split at he
  · exact he
  · split at he
    · split at he
      · exact he
      · exact mem_mapDelete m _ e he
    · exact he

lemma mapGet_mem (m : Ledger) (k : String) (l : List Int)
    (h : mapGet m k = some l) : ∃ e ∈ m, e.2 = l := by
  unfold mapGet at h
  cases hf : List.find? (fun e => e.1 = k) m with
  | none => rw [hf] at h; cases h
  | some e =>
    rw [hf] at h
    simp only [Option.map] at h
    exact ⟨e, List.mem_of_find?_eq_some hf, by injection h⟩

lemma mem_checkRun (interval cap maxR now : Int) (token : String) (m : Ledger) :
    ∀ e ∈ (checkRun interval cap maxR token now m).2,
      e ∈ m ∨ e = (token,
        filterRecentRequests ((mapGet m token).getD []) now interval ++ [now]) := by
  intro e he
  simp only [checkRun] at he
  by_cases h0 : maxR ≤ 0 ∨ token = ""
  · rw [if_pos h0] at he
    exact Or.inl he
  · rw [if_neg h0] at he
    by_cases h1 : maxR ≤ ((filterRecentRequests ((mapGet m token).getD []) now interval).length : Int)
    · rw [if_pos h1] at he
      exact Or.inl he
    · rw [if_neg h1] at he
      have he2 := mem_enforce _ cap e he
      exact mem_mapSet m token _ e he2

lemma mem_cleanup (m : Ledger) (now interval : Int) :
    ∀ e ∈ cleanupExpiredTokens m now interval,
      ∃ l, (e.1, l) ∈ m ∧ e.2 = filterRecentRequests l now interval := by
  intro e he
  unfold cleanupExpiredTokens at he
  have he1 := List.mem_of_mem_filter he
  rcases List.mem_map.mp he1 with ⟨f, hf, hfe⟩
  exact ⟨f.2, by rw [← hfe]; exact hf, by rw [← hfe]⟩

lemma filterRecent_pairwise (l : List Int) (now interval : Int)
    (h : l.Pairwise (fun a b => a ≤ b)) :
    (filterRecentRequests l now interval).Pairwise (fun a b => a ≤ b) :=
  h.sublist (List.filter_sublist l)

lemma mem_filterRecent (l : List Int) (now interval : Int) :
    ∀ x ∈ filterRecentRequests l now interval, x ∈ l := by
  intro x hx
  exact List.mem_of_mem_filter hx

lemma reachable_invariant (interval cap t : Int) (m : Ledger)
    (h : Reachable interval cap t m) : SortedLedger m ∧ BoundedBy m t := by
  induction h with
  | init t =>
    constructor
    · intro e he; cases he
    · intro e he; cases he
  | step t u m maxR token hr htu ih =>
    obtain ⟨hs, hb⟩ := ih
    have hacc : ((mapGet m token).getD []).Pairwise (fun a b => a ≤ b) ∧
        ∀ x ∈ (mapGet m token).getD [], x ≤ t := by
      cases hg : mapGet m token with
      | none => simp
      | some l =>
        obtain ⟨e, he, hel⟩ := mapGet_mem m token l hg
        subst hel
        simp only [Option.getD_some]
        exact ⟨hs e he, hb e he⟩
    constructor
    · intro e he
      rcases mem_checkRun interval cap maxR u token m e he with hm | rfl
      · exact hs e hm
      · refine List.pairwise_append.mpr ⟨filterRecent_pairwise _ _ _ hacc.1, ?_, ?_⟩
        · simp
        · intro x hx y hy
          rcases List.mem_singleton.mp hy with rfl
          have := hacc.2 x (mem_filterRecent _ _ _ x hx)
          omega
    · intro e he
      rcases mem_checkRun interval cap maxR u token m e he with hm | rfl
      · intro x hx
        have := hb e hm x hx
        omega
      · intro x hx
        rcases List.mem_append.mp hx with h1 | h1
        · have := hacc.2 x (mem_filterRecent _ _ _ x h1)
          omega
        · rcases List.mem_singleton.mp h1 with rfl
          omega
  | sweep t u m hr htu ih =>
    obtain ⟨hs, hb⟩ := ih
    constructor
    · intro e he
      obtain ⟨l, hl, hel⟩ := mem_cleanup m u interval e he
      rw [hel]
      exact filterRecent_pairwise _ _ _ (hs (e.1, l) hl)
    · intro e he
      obtain ⟨l, hl, hel⟩ := mem_cleanup m u interval e he
      intro x hx
      rw [hel] at hx
      have := hb (e.1, l) hl x (mem_filterRecent _ _ _ x hx)
      omega

/-- Claim C9: in every state reachable by check calls and background sweeps
under a non-decreasing clock, every identity's timestamp list is
monotonically non-decreasing in insertion order (the inductive proof shows
both check and the sweep preserve the invariant). -/
theorem reachable_sorted (interval cap t : Int) (m : Ledger)
    (h : Reachable interval cap t m) : SortedLedger m :=
  (reachable_invariant interval cap t m h).1

/-- Witness for Claim C9: a state reached by two check calls. -/
theorem reachable_sorted_witness :
    SortedLedger
      (checkRun 60000 50 5 "ip" 40000
        (checkRun 60000 50 5 "ip" 10000 []).2).2 :=
  reachable_sorted 60000 50 40000 _
    (Reachable.step 10000 40000 (checkRun 60000 50 5 "ip" 10000 []).2 5 "ip"
      (Reachable.step 0 10000 [] 5 "ip" (Reachable.init 0) (by omega))
      (by omega))

end RateLimit

namespace Orchestrator

lemma genWS_of_tryError (c : Collab) (prompt initialResponse model : String)
    (hmode : isTestMode model = false) (e : String)
    (h : tryAugment c prompt initialResponse model = .error e) :
    generateResponseWithWebSearch c prompt initialResponse model = initialResponse := by
  simp only [generateResponseWithWebSearch, hmode, Bool.false_eq_true, if_false]
  rw [h]

lemma genWS_of_tryOk (c : Collab) (prompt initialResponse model : String)
    (hmode : isTestMode model = false) (s : String)
    (h : tryAugment c prompt initialResponse model = .ok s) :
    generateResponseWithWebSearch c prompt initialResponse model = s := by
  simp only [generateResponseWithWebSearch, hmode, Bool.false_eq_true, if_false]
  rw [h]

/-- Claim C3: generateResponseWithWebSearch (total, so no exception
escapes) returns exactly the initial answer whenever the try body throws,
and in particular when keyword extraction throws, when the web search throws
or yields an empty result list, and when the second LLM call throws or
returns an empty answer. -/
theorem orchestrator_degrades (c : Collab) (prompt initialResponse model : String)
    (_hinit : initialResponse ≠ "") (hmode : isTestMode model = false) :
    (∀ e, tryAugment c prompt initialResponse model = .error e →
      generateResponseWithWebSearch c prompt initialResponse model = initialResponse) ∧
    (∀ e, c.extractSearchKeywords prompt = .error e →
      generateResponseWithWebSearch c prompt initialResponse model = initialResponse) ∧
    (∀ kw, c.extractSearchKeywords prompt = .ok kw →
      (∀ e, c.performWebSearch kw MAX_SEARCH_RESULTS = .error e →
        generateResponseWithWebSearch c prompt initialResponse model = initialResponse) ∧
      (c.performWebSearch kw MAX_SEARCH_RESULTS = .ok [] →
        generateResponseWithWebSearch c prompt initialResponse model = initialResponse) ∧
      (∀ rs, c.performWebSearch kw MAX_SEARCH_RESULTS = .ok rs → rs ≠ [] →
        (∀ e, c.chatCompletion model
            (finalMessages prompt (formatSearchResults rs)) = .error e →
          generateResponseWithWebSearch c prompt initialResponse model = initialResponse) ∧
        (c.chatCompletion model
            (finalMessages prompt (formatSearchResults rs)) = .ok "" →
          generateResponseWithWebSearch c prompt initialResponse model = initialResponse))) := by
  refine ⟨?_, ?_, ?_⟩
  · intro e h
    exact genWS_of_tryError c prompt initialResponse model hmode e h
  · intro e h
    refine genWS_of_tryError c prompt initialResponse model hmode e ?_
    simp only [tryAugment]
    rw [h]
    rfl
  · intro kw hkw
    refine ⟨?_, ?_, ?_⟩
    · intro e h
      refine genWS_of_tryError c prompt initialResponse model hmode e ?_
      simp only [tryAugment]
      rw [hkw]
      show (c.performWebSearch kw MAX_SEARCH_RESULTS).bind _ = _
      rw [h]
      rfl
    · intro h
      refine genWS_of_tryOk c prompt initialResponse model hmode initialResponse ?_
      simp only [tryAugment]
      rw [hkw]
      show (c.performWebSearch kw MAX_SEARCH_RESULTS).bind _ = _
      rw [h]
      rfl
    · intro rs hrs hne
      constructor
      · intro e h
        refine genWS_of_tryOk c prompt initialResponse model hmode initialResponse ?_
        simp only [tryAugment]
        rw [hkw]
        show (c.performWebSearch kw MAX_SEARCH_RESULTS).bind _ = _
        rw [hrs]
        show (if rs.length = 0 then _ else _) = _
        rw [if_neg (by simpa [List.length_eq_zero] using hne)]
        simp only [generateFinalResponseWithSearchResults]
        rw [h]
        rfl
      · intro h
        refine genWS_of_tryOk c prompt initialResponse model hmode initialResponse ?_
        simp only [tryAugment]
        rw [hkw]
        show (c.performWebSearch kw MAX_SEARCH_RESULTS).bind _ = _
        rw [hrs]
        show (if rs.length = 0 then _ else _) = _
        rw [if_neg (by simpa [List.length_eq_zero] using hne)]
        simp only [generateFinalResponseWithSearchResults]
        rw [h]
        rfl

/-- Witness for Claim C3: concrete collaborators that fail keyword
extraction, return no results, and fail the second LLM call. -/
theorem orchestrator_degrades_witness :
    generateResponseWithWebSearch
      ⟨fun _ => .error "keyword extraction failed", fun _ _ => .ok [],
        fun _ _ => .ok "x"⟩ "最新のニュースは?" "初期回答" "gpt-4o-mini" = "初期回答" ∧
    generateResponseWithWebSearch
      ⟨fun _ => .ok "ニュース", fun _ _ => .ok [], fun _ _ => .ok "x"⟩
      "最新のニュースは?" "初期回答" "gpt-4o-mini" = "初期回答" ∧
    generateResponseWithWebSearch
      ⟨fun _ => .ok "ニュース", fun _ _ => .ok [⟨"t", "u", "d"⟩],
        fun _ _ => .error "upstream"⟩
      "最新のニュースは?" "初期回答" "gpt-4o-mini" = "初期回答" :=
  ⟨((orchestrator_degrades _ "最新のニュースは?" "初期回答" "gpt-4o-mini"
      (by decide) (by decide)).2.1) "keyword extraction failed" rfl,
   (((orchestrator_degrades _ "最新のニュースは?" "初期回答" "gpt-4o-mini"
      (by decide) (by decide)).2.2) "ニュース" rfl).2.1 rfl,
   ((((orchestrator_degrades _ "最新のニュースは?" "初期回答" "gpt-4o-mini"
      (by decide) (by decide)).2.2) "ニュース" rfl).2.2 [⟨"t", "u", "d"⟩] rfl
      (List.cons_ne_nil _ _)).1 "upstream" rfl⟩

end Orchestrator

namespace ApiRoute

/-- Claim C10: prompts of length at most 1000 pass through sanitizeInput
unchanged; the processed prompt is always the first 1000 characters of the
submitted prompt; longer prompts are truncated to exactly 1000 characters;
and any non-empty prompt is passed onward without an error. -/
theorem sanitize_truncates (p : String) :
    (p.length ≤ 1000 → sanitizeInput p = p) ∧
    sanitizeInput p = ⟨p.data.take 1000⟩ ∧
    (1000 < p.length → (sanitizeInput p).length = 1000) ∧
    (p ≠ "" → promptForPipeline p = some (sanitizeInput p)) := by
  refine ⟨?_, rfl, ?_, ?_⟩
  · intro h
    unfold sanitizeInput
    cases p with
    | mk l =>
      simp only [MAX_INPUT_LENGTH]
      congr 1
      exact List.take_of_length_le h
  · intro h
    unfold sanitizeInput
    cases p with
    | mk l =>
      simp only [MAX_INPUT_LENGTH, String.length]
      rw [List.length_take]
      simp only [String.length] at h
      omega
  · intro h
    unfold promptForPipeline
    rw [if_neg h]

/-- Witness for Claim C10 on a short prompt and a 1001-character prompt. -/
theorem sanitize_truncates_witness :
    sanitizeInput "こんにちは" = "こんにちは" ∧
    promptForPipeline "こんにちは" = some "こんにちは" ∧
    (sanitizeInput ⟨List.replicate 1001 'a'⟩).length = 1000 := by
  have h1 := sanitize_truncates "こんにちは"
  have h2 := sanitize_truncates ⟨List.replicate 1001 'a'⟩
  have hlong : (1000 : Nat) < (⟨List.replicate 1001 'a'⟩ : String).length := by
    have h : (⟨List.replicate 1001 'a'⟩ : String).length = 1001 := by
      show (List.replicate 1001 'a').length = 1001
      exact List.length_replicate 1001 'a'
    omega
  refine ⟨h1.1 (by decide), ?_, h2.2.2.1 hlong⟩
  rw [h1.2.2.2 (by decide), h1.1 (by decide)]

end ApiRoute
